import Mathlib

/-!
Verification of the URDF loading core of `pytransform` (`pytransform/urdf.py`):
a shallow embedding of `UrdfTransformManager` (`add_joint`, `set_joint`,
`load_urdf`, `_parse_link`, `_parse_joint`) and the transient `Node` table,
together with proofs of the specified properties.

Matrix entries are rationals; the external transform algebra and numeric
parsing (`pytransform.transformations`, `pytransform.rotations`, numpy) are
not part of the staged source and are modelled from the spec, either as
concrete definitions (homogeneous assembly, composition) or as abstract
function parameters gathered in `Externals` (Euler/axis-angle rotation
construction, float-string parsing).
-/

/-- A 3-vector of rational coordinates (models a numpy array of shape (3,)). -/
structure Vec3 where
  x : ℚ
  y : ℚ
  z : ℚ
deriving DecidableEq, Repr

/-- The zero 3-vector, `np.zeros(3)`. -/
def Vec3.zero : Vec3 := ⟨0, 0, 0⟩

/-- A 3x3 matrix of rationals (models a numpy array of shape (3, 3)). -/
structure Mat3 where
  r00 : ℚ
  r01 : ℚ
  r02 : ℚ
  r10 : ℚ
  r11 : ℚ
  r12 : ℚ
  r20 : ℚ
  r21 : ℚ
  r22 : ℚ
deriving DecidableEq, Repr

/-- The 3x3 identity matrix, `np.eye(3)`. -/
def Mat3.id : Mat3 := ⟨1, 0, 0, 0, 1, 0, 0, 0, 1⟩

/-- Matrix transpose, numpy's `.T`. -/
def Mat3.transpose (m : Mat3) : Mat3 :=
  ⟨m.r00, m.r10, m.r20, m.r01, m.r11, m.r21, m.r02, m.r12, m.r22⟩

/-- A 4x4 homogeneous transform matrix of rationals. -/
structure Mat4 where
  a00 : ℚ
  a01 : ℚ
  a02 : ℚ
  a03 : ℚ
  a10 : ℚ
  a11 : ℚ
  a12 : ℚ
  a13 : ℚ
  a20 : ℚ
  a21 : ℚ
  a22 : ℚ
  a23 : ℚ
  a30 : ℚ
  a31 : ℚ
  a32 : ℚ
  a33 : ℚ
deriving DecidableEq, Repr

/-- The 4x4 identity matrix, `np.eye(4)`. -/
def Mat4.id : Mat4 := ⟨1, 0, 0, 0, 0, 1, 0, 0, 0, 0, 1, 0, 0, 0, 0, 1⟩

/-- 4x4 matrix product `A.dot(B)` (row-by-column). -/
def Mat4.mul (A B : Mat4) : Mat4 where
  a00 := A.a00 * B.a00 + A.a01 * B.a10 + A.a02 * B.a20 + A.a03 * B.a30
  a01 := A.a00 * B.a01 + A.a01 * B.a11 + A.a02 * B.a21 + A.a03 * B.a31
  a02 := A.a00 * B.a02 + A.a01 * B.a12 + A.a02 * B.a22 + A.a03 * B.a32
  a03 := A.a00 * B.a03 + A.a01 * B.a13 + A.a02 * B.a23 + A.a03 * B.a33
  a10 := A.a10 * B.a00 + A.a11 * B.a10 + A.a12 * B.a20 + A.a13 * B.a30
  a11 := A.a10 * B.a01 + A.a11 * B.a11 + A.a12 * B.a21 + A.a13 * B.a31
  a12 := A.a10 * B.a02 + A.a11 * B.a12 + A.a12 * B.a22 + A.a13 * B.a32
  a13 := A.a10 * B.a03 + A.a11 * B.a13 + A.a12 * B.a23 + A.a13 * B.a33
  a20 := A.a20 * B.a00 + A.a21 * B.a10 + A.a22 * B.a20 + A.a23 * B.a30
  a21 := A.a20 * B.a01 + A.a21 * B.a11 + A.a22 * B.a21 + A.a23 * B.a31
  a22 := A.a20 * B.a02 + A.a21 * B.a12 + A.a22 * B.a22 + A.a23 * B.a32
  a23 := A.a20 * B.a03 + A.a21 * B.a13 + A.a22 * B.a23 + A.a23 * B.a33
  a30 := A.a30 * B.a00 + A.a31 * B.a10 + A.a32 * B.a20 + A.a33 * B.a30
  a31 := A.a30 * B.a01 + A.a31 * B.a11 + A.a32 * B.a21 + A.a33 * B.a31
  a32 := A.a30 * B.a02 + A.a31 * B.a12 + A.a32 * B.a22 + A.a33 * B.a32
  a33 := A.a30 * B.a03 + A.a31 * B.a13 + A.a32 * B.a23 + A.a33 * B.a33

theorem Mat4.mul_ident (A : Mat4) : Mat4.mul A Mat4.id = A := by
  cases A
  simp [Mat4.mul, Mat4.id]

/-- Modelled from the spec (§6, "homogeneous_from(rotation, translation) ->
4x4 transform"): `pytransform.transformations.transform_from` is not in the
staged source; it assembles the homogeneous transform with the rotation in
the upper-left 3x3 block, the translation in the last column, and bottom
row (0, 0, 0, 1). -/
def transform_from (R : Mat3) (t : Vec3) : Mat4 :=
  ⟨R.r00, R.r01, R.r02, t.x,
   R.r10, R.r11, R.r12, t.y,
   R.r20, R.r21, R.r22, t.z,
   0, 0, 0, 1⟩

/-- The rotation block (upper-left 3x3) of a homogeneous transform. -/
def Mat4.rotationOf (M : Mat4) : Mat3 :=
  ⟨M.a00, M.a01, M.a02, M.a10, M.a11, M.a12, M.a20, M.a21, M.a22⟩

/-- The translation part (last column, first three rows) of a homogeneous
transform. -/
def Mat4.translationOf (M : Mat4) : Vec3 :=
  ⟨M.a03, M.a13, M.a23⟩

theorem rotationOf_transform_from (R : Mat3) (t : Vec3) :
    (transform_from R t).rotationOf = R := rfl

theorem translationOf_transform_from (R : Mat3) (t : Vec3) :
    (transform_from R t).translationOf = t := rfl

theorem transform_from_id : transform_from Mat3.id Vec3.zero = Mat4.id := rfl

/-- Modelled from the spec (§6, "compose(transform_a, transform_b)" and §4.2):
`pytransform.transformations.concat` is not in the staged source.  §4.2
requires that `update` commit a transform in which the angle-dependent joint
rotation (the first argument of the source's `concat(joint2A, child2parent)`
call) acts on child-frame points before the stored origin offset, i.e. the
committed matrix is `child2parent · joint2A`; hence `concat A2B B2C` applies
`A2B` first and returns the product `B2C · A2B`. -/
def concat (A2B B2C : Mat4) : Mat4 := Mat4.mul B2C A2B

/-- The abstract external numeric functions the URDF core calls but whose
code is outside the staged source: numpy's `fromstring` float parsing and the
Euler / axis-angle rotation constructors of `pytransform.rotations`.
Modelled from the spec (§6) as pure functions the core treats as opaque;
properties the spec asserts about them (such as the axis-angle rotation at
angle zero being the identity) appear as explicit hypotheses where a claim
needs them. -/
structure Externals where
  fromstring : String → Vec3
  matrix_from_euler_xyz : Vec3 → Mat3
  matrix_from_axis_angle : Vec3 → ℚ → Mat3

/-! ### Association lists

Python `dict`s (`self._joints`, the `nodes` table, the edge store of the
Frame-Graph Store) are modelled as association lists with insertion-order
preserving upsert, matching CPython dict semantics: writing to an existing
key replaces the value in place, writing a fresh key appends. -/

/-- First value stored under `key`, or `none` (Python `d.get(key)`). -/
def lookupA {α β : Type} [DecidableEq α] : List (α × β) → α → Option β
  | [], _ => none
  | (k, v) :: rest, key => if key = k then some v else lookupA rest key

/-- Python `d[key] = val`: replace in place if present, append otherwise. -/
def upsert {α β : Type} [DecidableEq α] (key : α) (val : β) :
    List (α × β) → List (α × β)
  | [] => [(key, val)]
  | (k, v) :: rest =>
      if key = k then (key, val) :: rest else (k, v) :: upsert key val rest

theorem lookupA_upsert_self {α β : Type} [DecidableEq α] (key : α) (val : β)
    (l : List (α × β)) : lookupA (upsert key val l) key = some val := by
  induction l with
  | nil => simp [upsert, lookupA]
  | cons hd tl ih =>
      obtain ⟨k, v⟩ := hd
      by_cases h : key = k <;> simp [upsert, lookupA, h, ih]

theorem lookupA_upsert_other {α β : Type} [DecidableEq α] (key key' : α)
    (val : β) (l : List (α × β)) (h : key' ≠ key) :
    lookupA (upsert key val l) key' = lookupA l key' := by
  induction l with
  | nil => simp [upsert, lookupA, h]
  | cons hd tl ih =>
      obtain ⟨k, v⟩ := hd
      by_cases hk : key = k
      · subst hk
        simp [upsert, lookupA, h]
      · by_cases hk' : key' = k <;> simp [upsert, lookupA, hk, hk', ih]

theorem upsert_idem {α β : Type} [DecidableEq α] (key : α) (val : β)
    (l : List (α × β)) : upsert key val (upsert key val l) = upsert key val l := by
  induction l with
  | nil => simp [upsert]
  | cons hd tl ih =>
      obtain ⟨k, v⟩ := hd
      by_cases h : key = k <;> simp [upsert, h, ih]

/-! ### The document tree

The external document accessor (BeautifulSoup in the source) is modelled
from the spec (§2, §6): an element has a tag, string attributes and child
elements; `find` returns the first descendant with a given tag in document
order, `findAll` all of them.  The tree is a mutual inductive (an element
and its child list) so that every traversal is structurally recursive and
reduces definitionally. -/

mutual
/-- A parsed markup element: tag, attributes, children. -/
inductive Elem : Type where
  | mk (tag : String) (attrs : List (String × String)) (children : ElemList)
/-- A list of sibling elements. -/
inductive ElemList : Type where
  | nil
  | cons (head : Elem) (tail : ElemList)
end

/-- The element's tag. -/
def Elem.tag : Elem → String
  | .mk t _ _ => t

/-- The element's attribute list. -/
def Elem.attrs : Elem → List (String × String)
  | .mk _ a _ => a

/-- Attribute lookup: `element[name]` guarded by `element.has_attr(name)`. -/
def getAttr (e : Elem) (name : String) : Option String :=
  lookupA e.attrs name

mutual
/-- All descendants of an element in document (pre-)order. -/
def Elem.descendants : Elem → List Elem
  | .mk _ _ cs => cs.descList
/-- All members of a sibling list together with their descendants, in
document (pre-)order. -/
def ElemList.descList : ElemList → List Elem
  | .nil => []
  | .cons e es => e :: (e.descendants ++ es.descList)
end

/-- Embed a `List Elem` as an `ElemList` (convenience for building inputs). -/
def elemsOf : List Elem → ElemList
  | [] => .nil
  | e :: es => .cons e (elemsOf es)

/-- Build an element from a plain list of children. -/
def el (tag : String) (attrs : List (String × String)) (children : List Elem) :
    Elem :=
  Elem.mk tag attrs (elemsOf children)

/-- BeautifulSoup `findAll(tag)`: every descendant with the tag, in document
order. -/
def findAllTag (tag : String) (e : Elem) : List Elem :=
  e.descendants.filter (fun c => c.tag = tag)

/-- BeautifulSoup `find(tag)`: the first descendant with the tag, or `none`. -/
def findFirst (tag : String) (e : Elem) : Option Elem :=
  (findAllTag tag e).head?

example :
    findAllTag "link"
      (el "robot" [("name", "r")]
        [el "link" [("name", "a")] [], el "joint" [] [],
         el "link" [("name", "b")] []]) =
    [el "link" [("name", "a")] [], el "link" [("name", "b")] []] := rfl

example :
    findFirst "parent" (el "joint" [] [el "parent" [("link", "p")] []]) =
      some (el "parent" [("link", "p")] []) := rfl

/-! ### The transform manager state

`UrdfTransformManager` extends `TransformManager` (the Frame-Graph Store,
outside the staged source).  Modelled from the spec (§6): the store keeps a
directed edge transform per (child_frame, parent_frame) pair and
`add_transform` upserts one edge; frames exist implicitly.  `joints` is the
manager's own `self._joints` dict. -/

/-- One record of `self._joints`: the tuple
`(from_frame, to_frame, child2parent, axis)` stored by `add_joint`. -/
structure Joint where
  from_frame : String
  to_frame : String
  child2parent : Mat4
  axis : Vec3
deriving DecidableEq, Repr

/-- The mutable state of a `UrdfTransformManager`: the Frame-Graph Store's
edges (inherited from `TransformManager`, modelled from the spec as an edge
map keyed by (child frame, parent frame)) and the joint registry dict. -/
structure UrdfTransformManager where
  transforms : List ((String × String) × Mat4)
  joints : List (String × Joint)
deriving DecidableEq, Repr

/-- A freshly constructed manager: no edges, no joints. -/
def UrdfTransformManager.init : UrdfTransformManager := ⟨[], []⟩

/-- Modelled from the spec (§6, `upsert_edge`): `TransformManager.add_transform`
is not in the staged source; it upserts the directed edge
(from_frame, to_frame) with the given transform. -/
def add_transform (s : UrdfTransformManager) (from_frame to_frame : String)
    (A2B : Mat4) : UrdfTransformManager :=
  { s with transforms := upsert (from_frame, to_frame) A2B s.transforms }

/-- `UrdfTransformManager.add_joint`: commit `child2parent` as the current
(from_frame, to_frame) edge and store the joint record under `joint_name`. -/
def add_joint (s : UrdfTransformManager) (joint_name from_frame to_frame : String)
    (child2parent : Mat4) (axis : Vec3) : UrdfTransformManager :=
  let s1 := add_transform s from_frame to_frame child2parent
  { s1 with
    joints := upsert joint_name ⟨from_frame, to_frame, child2parent, axis⟩ s1.joints }

/-- `UrdfTransformManager.set_joint`: raise `KeyError` for an unknown joint
name; otherwise rebuild the edge from the stored record and the angle.  The
Python method mutates `self` and may raise; modelled as the updated state
paired with the raised message, the state unchanged when raising. -/
def set_joint (E : Externals) (s : UrdfTransformManager) (joint_name : String)
    (angle : ℚ) : UrdfTransformManager × Option String :=
  match lookupA s.joints joint_name with
  | none => (s, some ("Joint '" ++ joint_name ++ "' is not known"))
  | some j =>
      let joint_rotation := E.matrix_from_axis_angle j.axis angle
      let joint2A := transform_from joint_rotation Vec3.zero
      (add_transform s j.from_frame j.to_frame (concat joint2A j.child2parent), none)

/-! ### The URDF loader -/

/-- The transient per-link parse node (`class Node` of the source). -/
structure Node where
  child : String
  parent : String
  child2parent : Mat4
  joint_name : Option String
  joint_axis : Option Vec3
  joint_type : String
deriving DecidableEq, Repr

/-- `Node.__init__`: identity transform, no joint yet, type `"fixed"`. -/
def Node.init (child parent : String) : Node :=
  ⟨child, parent, Mat4.id, none, none, "fixed"⟩

/-- `UrdfTransformManager._parse_link`: require the link's `name` attribute
and create its node. -/
def parse_link (link : Elem) (robot_name : String) : Except String Node :=
  match getAttr link "name" with
  | none => .error "Link name is missing."
  | some nm => .ok (Node.init nm robot_name)

/-- The first loop of `load_urdf`: parse every link element into the node
table, keyed by link name (duplicates: last write wins). -/
def parseLinks (robot_name : String) :
    List Elem → List (String × Node) → Except String (List (String × Node))
  | [], nodes => .ok nodes
  | link :: rest, nodes =>
      match parse_link link robot_name with
      | .error e => .error e
      | .ok node => parseLinks robot_name rest (upsert node.child node nodes)

/-- The translation read by `_parse_joint` from the joint's optional `origin`
element: the parsed `xyz` attribute, defaulting to `np.zeros(3)` when the
element or the attribute is absent. -/
def translationFromOrigin (E : Externals) (joint : Elem) : Vec3 :=
  match findFirst "origin" joint with
  | none => Vec3.zero
  | some o =>
      match getAttr o "xyz" with
      | none => Vec3.zero
      | some sxyz => E.fromstring sxyz

/-- The rotation read by `_parse_joint` from the joint's optional `origin`
element: the Euler-xyz matrix of the parsed `rpy` attribute **transposed**
(alias-to-alibi convention conversion), defaulting to `np.eye(3)` when the
element or the attribute is absent. -/
def rotationFromOrigin (E : Externals) (joint : Elem) : Mat3 :=
  match findFirst "origin" joint with
  | none => Mat3.id
  | some o =>
      match getAttr o "rpy" with
      | none => Mat3.id
      | some srpy => (E.matrix_from_euler_xyz (E.fromstring srpy)).transpose

/-- The rotation axis read by `_parse_joint` for a revolute joint: the parsed
`xyz` attribute of the optional `axis` element, defaulting to `(1, 0, 0)`
when the element or the attribute is absent. -/
def axisFromJoint (E : Externals) (joint : Elem) : Vec3 :=
  match findFirst "axis" joint with
  | none => ⟨1, 0, 0⟩
  | some ax =>
      match getAttr ax "xyz" with
      | none => ⟨1, 0, 0⟩
      | some sxyz => E.fromstring sxyz

/-- `UrdfTransformManager._parse_joint`: write joint name, type and parent
onto the child's node, validate the joint type, read the optional `origin`
(translation `xyz`, rotation `rpy` transposed out of the alias convention)
and, for revolute joints, the optional `axis`. -/
def parse_joint (E : Externals) (joint : Elem) (node : Node)
    (parent_name : String) : Except String Node :=
  let n1 : Node :=
    { node with
      joint_name := getAttr joint "name"
      joint_type := (getAttr joint "type").getD ""
      parent := parent_name }
  if n1.joint_type ∈ ["planar", "floating", "continuous", "prismatic"] then
    .error ("Unsupported joint type '" ++ n1.joint_type ++ "'")
  else if n1.joint_type ∉ ["revolute", "fixed"] then
    .error ("Joint type '" ++ n1.joint_type ++ "' is not allowed in a URDF document.")
  else
    let n2 : Node :=
      { n1 with
        child2parent :=
          transform_from (rotationFromOrigin E joint) (translationFromOrigin E joint) }
    let n3 : Node := { n2 with joint_axis := some ⟨1, 0, 0⟩ }
    if n3.joint_type = "revolute" then
      .ok { n3 with joint_axis := some (axisFromJoint E joint) }
    else
      .ok n3

/-- The body of the second loop of `load_urdf` for one joint element: the
name/type/parent/child validations in source order, then `_parse_joint` on
the child's node. -/
def processJoint (E : Externals) (joint : Elem) (nodes : List (String × Node)) :
    Except String (List (String × Node)) :=
  match getAttr joint "name" with
  | none => .error "Joint name is missing."
  | some joint_name =>
      match getAttr joint "type" with
      | none => .error ("Joint type is missing in joint '" ++ joint_name ++ "'.")
      | some _ =>
        match findFirst "parent" joint with
        | none => .error ("No parent specified in joint '" ++ joint_name ++ "'")
        | some parent =>
            match getAttr parent "link" with
            | none => .error ("No parent link name given in joint '" ++ joint_name ++ "'.")
            | some parent_name =>
                match lookupA nodes parent_name with
                | none =>
                    .error ("Parent link '" ++ parent_name ++ "' of joint '" ++
                      joint_name ++ "' is not defined.")
                | some _ =>
                  match findFirst "child" joint with
                  | none => .error ("No child specified in joint '" ++ joint_name ++ "'")
                  | some child =>
                      match getAttr child "link" with
                      | none =>
                          .error ("No child link name given in joint '" ++
                            joint_name ++ "'.")
                      | some child_name =>
                          match lookupA nodes child_name with
                          | none =>
                              .error ("Child link '" ++ child_name ++ "' of joint '" ++
                                joint_name ++ "' is not defined.")
                          | some node =>
                              match parse_joint E joint node parent_name with
                              | .error e => .error e
                              | .ok node' => .ok (upsert child_name node' nodes)

/-- The second loop of `load_urdf`: process every joint element in document
order against the completed link table. -/
def processJoints (E : Externals) :
    List Elem → List (String × Node) → Except String (List (String × Node))
  | [], nodes => .ok nodes
  | joint :: rest, nodes =>
      match processJoint E joint nodes with
      | .error e => .error e
      | .ok nodes' => processJoints E rest nodes'

/-- The body of the final loop of `load_urdf` for one node: register revolute
joints through `add_joint`, commit every other node as a static edge. -/
def commitNode (s : UrdfTransformManager) (node : Node) : UrdfTransformManager :=
  if node.joint_type = "revolute" then
    add_joint s (node.joint_name.getD "") node.child node.parent node.child2parent
      (node.joint_axis.getD ⟨1, 0, 0⟩)
  else
    add_transform s node.child node.parent node.child2parent

/-- The final loop of `load_urdf`: materialize every node of the table, in
insertion order, into the Frame-Graph Store / joint registry. -/
def materialize : List (String × Node) → UrdfTransformManager → UrdfTransformManager
  | [], s => s
  | (_, node) :: rest, s => materialize rest (commitNode s node)

/-- `UrdfTransformManager.load_urdf` on an already-parsed document tree: find
the robot element, require its name, build the node table from all links,
merge all joints onto it, then materialize.  The Python method mutates `self`
and may raise; modelled as the updated state paired with the raised message.
No edge is committed before the final loop, so a raising run returns the
input state. -/
def load_urdf (E : Externals) (doc : Elem) (s : UrdfTransformManager) :
    UrdfTransformManager × Option String :=
  match findFirst "robot" doc with
  | none => (s, some "Robot tag is missing.")
  | some robot =>
      match getAttr robot "name" with
      | none => (s, some "Attribute 'name' is missing in robot tag.")
      | some robot_name =>
          match parseLinks robot_name (findAllTag "link" robot) [] with
          | .error e => (s, some e)
          | .ok nodes =>
              match processJoints E (findAllTag "joint" robot) nodes with
              | .error e => (s, some e)
              | .ok nodes' => (materialize nodes' s, none)

/-- The link names declared anywhere in the robot element, in document
order. -/
def declaredLinkNames (robot : Elem) : List String :=
  (findAllTag "link" robot).filterMap (fun l => getAttr l "name")

/-- A concrete instance of the external numeric functions, used to evaluate
the development on closed inputs. -/
def extSample : Externals where
  fromstring := fun _ => Vec3.zero
  matrix_from_euler_xyz := fun _ => Mat3.id
  matrix_from_axis_angle := fun _ _ => Mat3.id

/-- A concrete joint record and manager state, used by witnesses. -/
def jointSample : Joint := ⟨"arm", "base", Mat4.id, ⟨0, 0, 1⟩⟩

/-- A manager state holding exactly the sample joint. -/
def stateSample : UrdfTransformManager := ⟨[], [("j1", jointSample)]⟩

/-- C1: for every registered revolute joint and every angle,
`set_joint(joint_name, angle)` commits as the new
(child_frame, parent_frame) edge the composition of the pure joint rotation
(stored axis, given angle, zero translation) with the stored zero transform,
the angle-dependent rotation acting first: the committed matrix is the zero
transform multiplied by the joint-rotation transform. -/
theorem set_joint_commits_zero_mul_rotation (E : Externals)
    (s : UrdfTransformManager) (name c p : String) (T : Mat4) (ax : Vec3)
    (angle : ℚ) (h : lookupA s.joints name = some ⟨c, p, T, ax⟩) :
    (set_joint E s name angle).2 = none ∧
    lookupA (set_joint E s name angle).1.transforms (c, p) =
      some (Mat4.mul T
        (transform_from (E.matrix_from_axis_angle ax angle) Vec3.zero)) := by
  simp [set_joint, h, add_transform, concat, lookupA_upsert_self]

/-- Witness for C1: the sample registered joint, at angle 2. -/
theorem set_joint_commits_zero_mul_rotation_witness :
    (set_joint extSample stateSample "j1" 2).2 = none ∧
    lookupA (set_joint extSample stateSample "j1" 2).1.transforms ("arm", "base") =
      some (Mat4.mul Mat4.id
        (transform_from (extSample.matrix_from_axis_angle ⟨0, 0, 1⟩ 2) Vec3.zero)) :=
  set_joint_commits_zero_mul_rotation extSample stateSample "j1" "arm" "base"
    Mat4.id ⟨0, 0, 1⟩ 2 rfl

/-- C2: `add_joint(name, c, p, T, axis)` immediately commits `T` as the
current (c, p) edge, and a subsequent `set_joint(name, 0.0)` commits exactly
`T` again (angle-zero identity law).  The axis-angle rotation at angle zero
being the identity is a property of the external rotation algebra (spec §4.2,
§8) and enters as the hypothesis `h0`. -/
theorem add_joint_zero_angle_identity (E : Externals) (s : UrdfTransformManager)
    (name c p : String) (T : Mat4) (ax : Vec3)
    (h0 : E.matrix_from_axis_angle ax 0 = Mat3.id) :
    lookupA (add_joint s name c p T ax).transforms (c, p) = some T ∧
    (set_joint E (add_joint s name c p T ax) name 0).2 = none ∧
    lookupA (set_joint E (add_joint s name c p T ax) name 0).1.transforms (c, p) =
      some T := by
  have hj : lookupA (add_joint s name c p T ax).joints name = some ⟨c, p, T, ax⟩ := by
    simp [add_joint, add_transform, lookupA_upsert_self]
  refine ⟨?_, ?_, ?_⟩
  · simp [add_joint, add_transform, lookupA_upsert_self]
  · simp [set_joint, hj]
  · simp [set_joint, hj, concat, h0, transform_from_id, Mat4.mul_ident,
      add_transform, lookupA_upsert_self]

/-- Witness for C2: registering the sample joint on the empty manager and
updating it to angle zero re-commits its zero transform. -/
theorem add_joint_zero_angle_identity_witness :
    lookupA (add_joint UrdfTransformManager.init "j1" "arm" "base" Mat4.id
      ⟨0, 0, 1⟩).transforms ("arm", "base") = some Mat4.id ∧
    (set_joint extSample (add_joint UrdfTransformManager.init "j1" "arm" "base"
      Mat4.id ⟨0, 0, 1⟩) "j1" 0).2 = none ∧
    lookupA (set_joint extSample (add_joint UrdfTransformManager.init "j1" "arm"
      "base" Mat4.id ⟨0, 0, 1⟩) "j1" 0).1.transforms ("arm", "base") =
      some Mat4.id :=
  add_joint_zero_angle_identity extSample UrdfTransformManager.init "j1" "arm"
    "base" Mat4.id ⟨0, 0, 1⟩ rfl

/-- C7: updating a registered joint never touches the joint registry (the
stored axis, zero transform and frames are unchanged), and calling
`set_joint` twice in a row with the same name and angle commits the same
edge transform both times — the second call returns exactly the state and
result of the first (no hidden accumulation). -/
theorem set_joint_repeatable (E : Externals) (s : UrdfTransformManager)
    (name : String) (angle : ℚ) (j : Joint)
    (h : lookupA s.joints name = some j) :
    (set_joint E s name angle).1.joints = s.joints ∧
    set_joint E (set_joint E s name angle).1 name angle =
      set_joint E s name angle := by
  have h1 : (set_joint E s name angle).1.joints = s.joints := by
    simp [set_joint, h, add_transform]
  refine ⟨h1, ?_⟩
  have h2 : lookupA (set_joint E s name angle).1.joints name = some j := by
    rw [h1, h]
  simp [set_joint, h, h2, add_transform, upsert_idem]

/-- Witness for C7: the sample registered joint, updated twice at angle 2. -/
theorem set_joint_repeatable_witness :
    (set_joint extSample stateSample "j1" 2).1.joints = stateSample.joints ∧
    set_joint extSample (set_joint extSample stateSample "j1" 2).1 "j1" 2 =
      set_joint extSample stateSample "j1" 2 :=
  set_joint_repeatable extSample stateSample "j1" 2 jointSample rfl

/-- Full characterization of a successful `_parse_joint`: the returned node
is the input node with name, type and parent written from the joint element,
the child-to-parent transform assembled from the origin element, and the
axis read (for revolute joints) from the axis element. -/
theorem parse_joint_ok_eq (E : Externals) (joint : Elem) (node : Node)
    (pn : String) (nd' : Node) (h : parse_joint E joint node pn = .ok nd') :
    nd' =
      { node with
        joint_name := getAttr joint "name"
        joint_type := (getAttr joint "type").getD ""
        parent := pn
        child2parent :=
          transform_from (rotationFromOrigin E joint) (translationFromOrigin E joint)
        joint_axis :=
          some (if (getAttr joint "type").getD "" = "revolute" then
            axisFromJoint E joint else ⟨1, 0, 0⟩) } := by
  unfold parse_joint at h
  dsimp only at h
  split at h
  · simp at h
  split at h
  · simp at h
  split at h <;> (cases h; simp_all)

/-- C3: for a joint element whose `origin` carries an `rpy` attribute, the
rotation block of the node's computed child2parent transform is the
**transpose** of the Euler-derived rotation matrix; an absent `xyz`
attribute leaves the translation at (0,0,0); an absent `rpy` attribute, or
an absent `origin` element altogether, leaves the rotation at the
identity. -/
theorem parse_joint_origin_convention (E : Externals) (joint : Elem)
    (node : Node) (pn : String) (nd' : Node)
    (h : parse_joint E joint node pn = .ok nd') :
    (∀ o srpy, findFirst "origin" joint = some o → getAttr o "rpy" = some srpy →
       nd'.child2parent.rotationOf =
         (E.matrix_from_euler_xyz (E.fromstring srpy)).transpose) ∧
    (∀ o, findFirst "origin" joint = some o → getAttr o "xyz" = none →
       nd'.child2parent.translationOf = Vec3.zero) ∧
    (findFirst "origin" joint = none →
       nd'.child2parent.rotationOf = Mat3.id ∧
       nd'.child2parent.translationOf = Vec3.zero) ∧
    (∀ o, findFirst "origin" joint = some o → getAttr o "rpy" = none →
       nd'.child2parent.rotationOf = Mat3.id) := by
  have he := parse_joint_ok_eq E joint node pn nd' h
  subst he
  refine ⟨?_, ?_, ?_, ?_⟩
  · intro o srpy ho hr
    simp [rotationOf_transform_from, rotationFromOrigin, ho, hr]
  · intro o ho hx
    simp [translationOf_transform_from, translationFromOrigin, ho, hx]
  · intro ho
    simp [rotationOf_transform_from, translationOf_transform_from,
      rotationFromOrigin, translationFromOrigin, ho]
  · intro o ho hr
    simp [rotationOf_transform_from, rotationFromOrigin, ho, hr]

/-- The joint element used by the C3 witness: a fixed joint whose origin has
an `rpy` attribute but no `xyz` attribute. -/
def jointElemC3 : Elem :=
  el "joint" [("name", "j1"), ("type", "fixed")] [el "origin" [("rpy", "0 0 2")] []]

/-- The node `_parse_joint` produces for `jointElemC3` under `extSample`. -/
def nodeC3 : Node := ⟨"arm", "base", Mat4.id, some "j1", some ⟨1, 0, 0⟩, "fixed"⟩

/-- Witness for C3: `jointElemC3` parsed onto the node of link "arm". -/
theorem parse_joint_origin_convention_witness :
    (∀ o srpy, findFirst "origin" jointElemC3 = some o →
       getAttr o "rpy" = some srpy →
       nodeC3.child2parent.rotationOf =
         (extSample.matrix_from_euler_xyz (extSample.fromstring srpy)).transpose) ∧
    (∀ o, findFirst "origin" jointElemC3 = some o → getAttr o "xyz" = none →
       nodeC3.child2parent.translationOf = Vec3.zero) ∧
    (findFirst "origin" jointElemC3 = none →
       nodeC3.child2parent.rotationOf = Mat3.id ∧
       nodeC3.child2parent.translationOf = Vec3.zero) ∧
    (∀ o, findFirst "origin" jointElemC3 = some o → getAttr o "rpy" = none →
       nodeC3.child2parent.rotationOf = Mat3.id) :=
  parse_joint_origin_convention extSample jointElemC3 (Node.init "arm" "r")
    "base" nodeC3 rfl

/-- Processing a concatenation of joint lists processes the first list and,
if it succeeds, continues with the second on the updated table. -/
theorem processJoints_append (E : Externals) (a b : List Elem)
    (nodes : List (String × Node)) :
    processJoints E (a ++ b) nodes =
      match processJoints E a nodes with
      | .error e => .error e
      | .ok nodes' => processJoints E b nodes' := by
  induction a generalizing nodes with
  | nil => simp [processJoints]
  | cons j js ih =>
      simp only [List.cons_append, processJoints]
      cases processJoint E j nodes with
      | error e => simp
      | ok nodes' => simp [ih]

/-- The link table produced by the first loop of `load_urdf`: a name declared
by some link maps to its freshly initialized node (duplicates collapse, the
initialized node depending only on the name), an undeclared name falls
through to the accumulator. -/
theorem parseLinks_lookup (robot_name : String) (ls : List Elem)
    (acc out : List (String × Node))
    (h : parseLinks robot_name ls acc = .ok out) (nm : String) :
    lookupA out nm =
      if nm ∈ ls.filterMap (fun l => getAttr l "name") then
        some (Node.init nm robot_name)
      else lookupA acc nm := by
  induction ls generalizing acc with
  | nil =>
      simp only [parseLinks] at h
      cases h
      simp
  | cons l ls ih =>
      simp only [parseLinks, parse_link] at h
      cases hA : getAttr l "name" with
      | none => rw [hA] at h; simp at h
      | some nm0 =>
          rw [hA] at h
          simp only at h
          have := ih _ h
          rw [this]
          by_cases hmem : nm ∈ ls.filterMap (fun l => getAttr l "name")
          · simp [hmem, hA]
          · by_cases hnm : nm = nm0
            · subst hnm
              simp [hmem, hA, Node.init, lookupA_upsert_self]
            · simp only [hmem, if_false]
              rw [lookupA_upsert_other _ _ _ _ (by simpa [Node.init] using hnm)]
              simp [List.filterMap_cons, hA, hmem, hnm]

/-- Inversion of a successful `processJoint`: all eight validations passed
and the output table is the input one with the child's node rewritten by
`_parse_joint`. -/
theorem processJoint_ok_inv (E : Externals) (j : Elem)
    (nodes out : List (String × Node)) (h : processJoint E j nodes = .ok out) :
    ∃ jn pe pn ce cn node node',
      getAttr j "name" = some jn ∧
      (getAttr j "type").isSome ∧
      findFirst "parent" j = some pe ∧
      getAttr pe "link" = some pn ∧
      (lookupA nodes pn).isSome ∧
      findFirst "child" j = some ce ∧
      getAttr ce "link" = some cn ∧
      lookupA nodes cn = some node ∧
      parse_joint E j node pn = .ok node' ∧
      out = upsert cn node' nodes := by
  unfold processJoint at h
  cases hn : getAttr j "name" with
  | none => rw [hn] at h; simp at h
  | some jn =>
  rw [hn] at h
  simp only at h
  cases hT : getAttr j "type" with
  | none => rw [hT] at h; simp at h
  | some t =>
  rw [hT] at h
  simp only at h
  cases hpe : findFirst "parent" j with
  | none => rw [hpe] at h; simp at h
  | some pe =>
  rw [hpe] at h
  simp only at h
  cases hpl : getAttr pe "link" with
  | none => rw [hpl] at h; simp at h
  | some pn =>
  rw [hpl] at h
  simp only at h
  cases hplk : lookupA nodes pn with
  | none => rw [hplk] at h; simp at h
  | some pnode =>
  rw [hplk] at h
  simp only at h
  cases hce : findFirst "child" j with
  | none => rw [hce] at h; simp at h
  | some ce =>
  rw [hce] at h
  simp only at h
  cases hcl : getAttr ce "link" with
  | none => rw [hcl] at h; simp at h
  | some cn =>
  rw [hcl] at h
  simp only at h
  cases hlk : lookupA nodes cn with
  | none => rw [hlk] at h; simp at h
  | some node =>
  rw [hlk] at h
  simp only at h
  cases hpj : parse_joint E j node pn with
  | error e => rw [hpj] at h; simp at h
  | ok node' =>
  rw [hpj] at h
  simp only at h
  cases h
  refine ⟨jn, pe, pn, ce, cn, node, node', rfl, ?_, rfl, hpl, ?_, rfl, hcl, hlk, hpj, rfl⟩
  · rfl
  · rw [hplk]; rfl

theorem lookupA_mem {α β : Type} [DecidableEq α] (l : List (α × β)) (k : α)
    (v : β) (h : lookupA l k = some v) : (k, v) ∈ l := by
  induction l with
  | nil => simp [lookupA] at h
  | cons hd tl ih =>
      obtain ⟨k0, v0⟩ := hd
      by_cases hk : k = k0
      · subst hk
        simp [lookupA] at h
        simp [h]
      · simp only [lookupA, hk, if_false] at h
        exact List.mem_cons_of_mem _ (ih h)

theorem mem_upsert {α β : Type} [DecidableEq α] (key : α) (val : β)
    (l : List (α × β)) (p : α × β) (h : p ∈ upsert key val l) :
    p = (key, val) ∨ p ∈ l := by
  induction l with
  | nil => simp [upsert] at h; simp [h]
  | cons hd tl ih =>
      obtain ⟨k0, v0⟩ := hd
      by_cases hk : key = k0
      · subst hk
        simp only [upsert, if_pos rfl] at h
        rcases List.mem_cons.mp h with h | h
        · exact Or.inl h
        · exact Or.inr (List.mem_cons_of_mem _ h)
      · simp only [upsert, hk, if_false] at h
        rcases List.mem_cons.mp h with h | h
        · exact Or.inr (by simp [h])
        · rcases ih h with h | h
          · exact Or.inl h
          · exact Or.inr (List.mem_cons_of_mem _ h)

theorem lookupA_upsert_isSome {α β : Type} [DecidableEq α] (key nm : α)
    (val : β) (l : List (α × β)) :
    (lookupA (upsert key val l) nm).isSome = true ↔
      nm = key ∨ (lookupA l nm).isSome = true := by
  by_cases h : nm = key
  · subst h
    simp [lookupA_upsert_self]
  · rw [lookupA_upsert_other _ _ _ _ h]
    simp [h]

theorem upsert_keys_nodup {α β : Type} [DecidableEq α] (key : α) (val : β)
    (l : List (α × β)) (h : (l.map Prod.fst).Nodup) :
    ((upsert key val l).map Prod.fst).Nodup := by
  induction l with
  | nil => simp [upsert]
  | cons hd tl ih =>
      obtain ⟨k0, v0⟩ := hd
      simp only [List.map_cons, List.nodup_cons] at h
      by_cases hk : key = k0
      · subst hk
        simpa [upsert, List.nodup_cons] using h
      · simp only [upsert, hk, if_false, List.map_cons, List.nodup_cons]
        refine ⟨?_, ih h.2⟩
        intro hmem
        rcases List.mem_map.mp hmem with ⟨p, hp, hfst⟩
        rcases mem_upsert key val tl p hp with rfl | hp'
        · exact hk (by simpa using hfst)
        · exact h.1 (List.mem_map.mpr ⟨p, hp', hfst⟩)

theorem processJoint_keys (E : Externals) (j : Elem)
    (nodes out : List (String × Node)) (h : processJoint E j nodes = .ok out)
    (nm : String) : (lookupA out nm).isSome = (lookupA nodes nm).isSome := by
  obtain ⟨jn, pe, pn, ce, cn, node, node', _, _, _, _, _, _, _, hlk, _, hout⟩ :=
    processJoint_ok_inv E j nodes out h
  subst hout
  by_cases hnm : nm = cn
  · subst hnm
    rw [lookupA_upsert_self, hlk]
    rfl
  · rw [lookupA_upsert_other _ _ _ _ hnm]

theorem processJoints_keys (E : Externals) (js : List Elem)
    (nodes out : List (String × Node)) (h : processJoints E js nodes = .ok out)
    (nm : String) : (lookupA out nm).isSome = (lookupA nodes nm).isSome := by
  induction js generalizing nodes with
  | nil =>
      simp only [processJoints] at h
      cases h
      rfl
  | cons j js ih =>
      simp only [processJoints] at h
      cases hj : processJoint E j nodes with
      | error e => rw [hj] at h; simp at h
      | ok nodes' =>
          rw [hj] at h
          simp only at h
          rw [ih _ h, processJoint_keys E j nodes nodes' hj]

/-- A joint loop run in which no joint resolves its child to the link `l`
leaves `l`'s node untouched. -/
theorem processJoints_lookup_untouched (E : Externals) (js : List Elem)
    (nodes out : List (String × Node)) (l : String)
    (h : processJoints E js nodes = .ok out)
    (hnoc : ∀ j ∈ js, ∀ ce cn, findFirst "child" j = some ce →
      getAttr ce "link" = some cn → cn ≠ l) :
    lookupA out l = lookupA nodes l := by
  induction js generalizing nodes with
  | nil =>
      simp only [processJoints] at h
      cases h
      rfl
  | cons j js ih =>
      simp only [processJoints] at h
      cases hj : processJoint E j nodes with
      | error e => rw [hj] at h; simp at h
      | ok nodes' =>
          rw [hj] at h
          simp only at h
          rw [ih _ h (fun j' hj' => hnoc j' (List.mem_cons_of_mem _ hj'))]
          obtain ⟨jn, pe, pn, ce, cn, node, node', _, _, _, _, _, hce, hcl, _, _, hout⟩ :=
            processJoint_ok_inv E j nodes nodes' hj
          subst hout
          exact lookupA_upsert_other _ _ _ _
            (fun he => (hnoc j (List.mem_cons_self j js) ce cn hce hcl) (he ▸ rfl))

/-- Whatever the node's joint type, committing it writes exactly the edge
(child, parent) with its child-to-parent transform. -/
theorem commitNode_transforms (s : UrdfTransformManager) (nd : Node) :
    (commitNode s nd).transforms =
      upsert (nd.child, nd.parent) nd.child2parent s.transforms := by
  unfold commitNode add_joint add_transform
  split <;> rfl

/-- Committing a node never removes a joint-registry entry. -/
theorem commitNode_joints (s : UrdfTransformManager) (nd : Node) :
    (commitNode s nd).joints =
      if nd.joint_type = "revolute" then
        upsert (nd.joint_name.getD "")
          ⟨nd.child, nd.parent, nd.child2parent, nd.joint_axis.getD ⟨1, 0, 0⟩⟩
          s.joints
      else s.joints := by
  unfold commitNode add_joint add_transform
  split <;> simp_all

/-- Every entry of the table built by the link loop is keyed by its node's
child name. -/
theorem parseLinks_child_eq_key (rn : String) (ls : List Elem)
    (acc out : List (String × Node)) (h : parseLinks rn ls acc = .ok out)
    (hacc : ∀ p ∈ acc, p.2.child = p.1) : ∀ p ∈ out, p.2.child = p.1 := by
  induction ls generalizing acc with
  | nil =>
      simp only [parseLinks] at h
      cases h
      exact hacc
  | cons l ls ih =>
      simp only [parseLinks, parse_link] at h
      cases hA : getAttr l "name" with
      | none => rw [hA] at h; simp at h
      | some nm =>
          rw [hA] at h
          simp only at h
          refine ih _ h ?_
          intro p hp
          rcases mem_upsert _ _ _ _ hp with rfl | hp'
          · rfl
          · exact hacc p hp'

/-- The link loop keeps the table's keys duplicate-free. -/
theorem parseLinks_keys_nodup (rn : String) (ls : List Elem)
    (acc out : List (String × Node)) (h : parseLinks rn ls acc = .ok out)
    (hacc : (acc.map Prod.fst).Nodup) : (out.map Prod.fst).Nodup := by
  induction ls generalizing acc with
  | nil =>
      simp only [parseLinks] at h
      cases h
      exact hacc
  | cons l ls ih =>
      simp only [parseLinks, parse_link] at h
      cases hA : getAttr l "name" with
      | none => rw [hA] at h; simp at h
      | some nm =>
          rw [hA] at h
          simp only at h
          exact ih _ h (upsert_keys_nodup _ _ _ hacc)

/-- The joint loop preserves both table invariants: entries keyed by their
node's child name, and duplicate-free keys. -/
theorem processJoints_inv (E : Externals) (js : List Elem)
    (nodes out : List (String × Node)) (h : processJoints E js nodes = .ok out)
    (hc : ∀ p ∈ nodes, p.2.child = p.1) (hn : (nodes.map Prod.fst).Nodup) :
    (∀ p ∈ out, p.2.child = p.1) ∧ (out.map Prod.fst).Nodup := by
  induction js generalizing nodes with
  | nil =>
      simp only [processJoints] at h
      cases h
      exact ⟨hc, hn⟩
  | cons j js ih =>
      simp only [processJoints] at h
      cases hj : processJoint E j nodes with
      | error e => rw [hj] at h; simp at h
      | ok nodes' =>
          rw [hj] at h
          simp only at h
          obtain ⟨jn, pe, pn, ce, cn, node, node', _, _, _, _, _, _, _, hlk, hpj, hout⟩ :=
            processJoint_ok_inv E j nodes nodes' hj
          subst hout
          refine ih _ h ?_ (upsert_keys_nodup _ _ _ hn)
          intro p hp
          rcases mem_upsert _ _ _ _ hp with rfl | hp'
          · have h1 : node.child = cn := hc _ (lookupA_mem _ _ _ hlk)
            have h2 := parse_joint_ok_eq E j node pn node' hpj
            subst h2
            exact h1
          · exact hc p hp'

/-- A materialize run over entries none of which is keyed by child `c`
leaves every (c, q) edge untouched. -/
theorem materialize_transforms_untouched (nodes : List (String × Node))
    (s : UrdfTransformManager) (c q : String)
    (hne : ∀ p ∈ nodes, p.2.child ≠ c) :
    lookupA (materialize nodes s).transforms (c, q) =
      lookupA s.transforms (c, q) := by
  induction nodes generalizing s with
  | nil => rfl
  | cons hd rest ih =>
      obtain ⟨k, nd⟩ := hd
      rw [materialize]
      rw [ih _ (fun p hp => hne p (List.mem_cons_of_mem _ hp))]
      rw [commitNode_transforms]
      exact lookupA_upsert_other _ _ _ _
        (fun he => hne (k, nd) (List.mem_cons_self _ _) (congrArg Prod.fst he).symm)

/-- Materializing a table with duplicate-free keys commits, for each entry,
exactly its (child, parent) edge with its child-to-parent transform. -/
theorem materialize_lookup_of_mem (nodes : List (String × Node))
    (s : UrdfTransformManager) (l : String) (nd : Node)
    (hc : ∀ p ∈ nodes, p.2.child = p.1) (hn : (nodes.map Prod.fst).Nodup)
    (hl : lookupA nodes l = some nd) :
    lookupA (materialize nodes s).transforms (nd.child, nd.parent) =
      some nd.child2parent := by
  induction nodes generalizing s with
  | nil => simp [lookupA] at hl
  | cons hd rest ih =>
      obtain ⟨k, nd0⟩ := hd
      rw [materialize]
      by_cases hk : l = k
      · subst hk
        simp only [lookupA, if_pos rfl] at hl
        cases hl
        have hrest : ∀ p ∈ rest, p.2.child ≠ nd.child := by
          intro p hp he
          have h1 : p.2.child = p.1 := hc p (List.mem_cons_of_mem _ hp)
          have h2 : nd.child = l := hc (l, nd) (List.mem_cons_self _ _)
          simp only [List.map_cons, List.nodup_cons] at hn
          exact hn.1 (List.mem_map.mpr ⟨p, hp, by rw [← h1, he, h2]⟩)
        rw [materialize_transforms_untouched rest _ _ _ hrest,
          commitNode_transforms, lookupA_upsert_self]
      · simp only [lookupA, hk, if_false] at hl
        refine ih _ (fun p hp => hc p (List.mem_cons_of_mem _ hp)) ?_ hl
        simp only [List.map_cons, List.nodup_cons] at hn
        exact hn.2

/-- Unfolding `load_urdf` once the robot element, its name and the link
table are fixed: the result is decided by the joint loop and the
materialization. -/
theorem load_urdf_resolved (E : Externals) (doc : Elem)
    (s : UrdfTransformManager) (robot : Elem) (rn : String)
    (nodes : List (String × Node))
    (hr : findFirst "robot" doc = some robot)
    (hrn : getAttr robot "name" = some rn)
    (hl : parseLinks rn (findAllTag "link" robot) [] = .ok nodes) :
    load_urdf E doc s =
      match processJoints E (findAllTag "joint" robot) nodes with
      | .error e => (s, some e)
      | .ok nodes' => (materialize nodes' s, none) := by
  simp [load_urdf, hr, hrn, hl]

/-- Every run of `load_urdf` either succeeds or returns the input state: all
raising validations happen before the first edge commit. -/
theorem load_urdf_fail_state (E : Externals) (doc : Elem)
    (s : UrdfTransformManager) :
    (load_urdf E doc s).2 = none ∨ (load_urdf E doc s).1 = s := by
  unfold load_urdf
  split
  · exact Or.inr rfl
  · split
    · exact Or.inr rfl
    · split
      · exact Or.inr rfl
      · split
        · exact Or.inr rfl
        · exact Or.inl rfl

/-- C9 counterexample: no failing load ever leaves the Frame-Graph Store in
a partially-populated state — for every document and every starting state, a
load either succeeds or returns the state exactly as it was, because all of
the document's edges are committed only after every validation has passed.
This refutes the claimed existence of a failing load that commits some but
not all of the document's edges. -/
theorem load_urdf_never_partial :
    ¬ ∃ (E : Externals) (doc : Elem) (s : UrdfTransformManager),
        (load_urdf E doc s).2.isSome = true ∧ (load_urdf E doc s).1 ≠ s := by
  rintro ⟨E, doc, s, h1, h2⟩
  rcases load_urdf_fail_state E doc s with h | h
  · rw [h] at h1
    cases h1
  · exact h2 h

/-- C9 amended: every load error aborts the load immediately with no local
recovery, and a failing load leaves the Frame-Graph Store exactly as it was
before the call (no partial commit, hence nothing to roll back). -/
theorem load_urdf_error_leaves_state (E : Externals) (doc : Elem)
    (s : UrdfTransformManager) (e : String)
    (h : (load_urdf E doc s).2 = some e) : (load_urdf E doc s).1 = s := by
  rcases load_urdf_fail_state E doc s with h1 | h1
  · rw [h1] at h
    cases h
  · exact h1

/-- Witness for the amended C9: a document without a robot element fails and
returns the starting state untouched. -/
theorem load_urdf_error_leaves_state_witness :
    (load_urdf extSample (el "nope" [] []) stateSample).1 = stateSample :=
  load_urdf_error_leaves_state extSample (el "nope" [] []) stateSample
    "Robot tag is missing." rfl

/-- A name is in the joint registry after materializing a node table exactly
when some node of the table is revolute and carries that joint name, or the
name was registered before. -/
theorem materialize_joints_isSome (nodes : List (String × Node))
    (s : UrdfTransformManager) (nm : String) :
    (lookupA (materialize nodes s).joints nm).isSome = true ↔
      (∃ p ∈ nodes, p.2.joint_type = "revolute" ∧ p.2.joint_name.getD "" = nm) ∨
        (lookupA s.joints nm).isSome = true := by
  induction nodes generalizing s with
  | nil => simp [materialize]
  | cons hd rest ih =>
      obtain ⟨k, nd⟩ := hd
      rw [materialize, ih, commitNode_joints]
      by_cases hrev : nd.joint_type = "revolute"
      · rw [if_pos hrev, lookupA_upsert_isSome]
        simp only [List.mem_cons]
        constructor
        · rintro (⟨p, hp, h1, h2⟩ | hnm | hs)
          · exact Or.inl ⟨p, Or.inr hp, h1, h2⟩
          · exact Or.inl ⟨(k, nd), Or.inl rfl, hrev, hnm.symm⟩
          · exact Or.inr hs
        · rintro (⟨p, hp | hp, h1, h2⟩ | hs)
          · cases hp
            exact Or.inr (Or.inl h2.symm)
          · exact Or.inl ⟨p, hp, h1, h2⟩
          · exact Or.inr (Or.inr hs)
      · rw [if_neg hrev]
        simp only [List.mem_cons]
        constructor
        · rintro (⟨p, hp, h1, h2⟩ | hs)
          · exact Or.inl ⟨p, Or.inr hp, h1, h2⟩
          · exact Or.inr hs
        · rintro (⟨p, hp | hp, h1, h2⟩ | hs)
          · cases hp
            exact absurd h1 hrev
          · exact Or.inl ⟨p, hp, h1, h2⟩
          · exact Or.inr hs

/-- C6: after a successful load on a manager with an empty joint registry,
the registry holds a record under a name exactly when some node of the final
table is a revolute joint with that name (fixed joints are committed only as
static edges and never registered); and `set_joint` on any unregistered name
fails with the `UnknownJoint` error, the message embedding the offending
name, leaving the state unchanged. -/
theorem joint_registry_iff_revolute (E : Externals) (doc : Elem)
    (s s' : UrdfTransformManager) (robot : Elem) (rn : String)
    (nodes0 nodes : List (String × Node))
    (hj0 : s.joints = [])
    (hr : findFirst "robot" doc = some robot)
    (hrn : getAttr robot "name" = some rn)
    (hl0 : parseLinks rn (findAllTag "link" robot) [] = .ok nodes0)
    (hpj : processJoints E (findAllTag "joint" robot) nodes0 = .ok nodes)
    (hld : load_urdf E doc s = (s', none)) :
    (∀ nm, (lookupA s'.joints nm).isSome = true ↔
       ∃ p ∈ nodes, p.2.joint_type = "revolute" ∧ p.2.joint_name.getD "" = nm) ∧
    (∀ nm angle, lookupA s'.joints nm = none →
       set_joint E s' nm angle =
         (s', some ("Joint '" ++ nm ++ "' is not known"))) := by
  have hres := load_urdf_resolved E doc s robot rn nodes0 hr hrn hl0
  rw [hpj] at hres
  simp only at hres
  rw [hld] at hres
  have hs' : s' = materialize nodes s := congrArg Prod.fst hres
  constructor
  · intro nm
    rw [hs', materialize_joints_isSome]
    simp [hj0, lookupA]
  · intro nm angle hnone
    simp [set_joint, hnone]

/-- A concrete two-link document: robot "r" with links "base" and "arm" and
one revolute joint "j1" from parent "base" to child "arm". -/
def jointElemS : Elem :=
  el "joint" [("name", "j1"), ("type", "revolute")]
    [el "parent" [("link", "base")] [], el "child" [("link", "arm")] [],
     el "origin" [("xyz", "1 0 0")] [], el "axis" [("xyz", "0 0 1")] []]

/-- The robot element of the concrete document. -/
def robotS : Elem :=
  el "robot" [("name", "r")]
    [el "link" [("name", "base")] [], el "link" [("name", "arm")] [], jointElemS]

/-- The parsed concrete document. -/
def docS : Elem := el "[document]" [] [robotS]

/-- The link table after the link loop of `load_urdf` on `docS`. -/
def nodes0S : List (String × Node) :=
  [("base", Node.init "base" "r"), ("arm", Node.init "arm" "r")]

/-- The node of link "arm" after the joint loop merged joint "j1" onto it
(under `extSample`, whose `fromstring` returns the zero vector). -/
def nodeArmS : Node := ⟨"arm", "base", Mat4.id, some "j1", some Vec3.zero, "revolute"⟩

/-- The node table after the joint loop of `load_urdf` on `docS`. -/
def nodesS : List (String × Node) :=
  [("base", Node.init "base" "r"), ("arm", nodeArmS)]

/-- The manager state after loading `docS` into a fresh manager. -/
def loadedS : UrdfTransformManager :=
  ⟨[(("base", "r"), Mat4.id), (("arm", "base"), Mat4.id)],
   [("j1", ⟨"arm", "base", Mat4.id, Vec3.zero⟩)]⟩

/-- Witness for C6: loading `docS` registers exactly the revolute joint
"j1"; updating an unknown name fails with the `UnknownJoint` message. -/
theorem joint_registry_iff_revolute_witness :
    (∀ nm, (lookupA loadedS.joints nm).isSome = true ↔
       ∃ p ∈ nodesS, p.2.joint_type = "revolute" ∧ p.2.joint_name.getD "" = nm) ∧
    (∀ nm angle, lookupA loadedS.joints nm = none →
       set_joint extSample loadedS nm angle =
         (loadedS, some ("Joint '" ++ nm ++ "' is not known"))) :=
  joint_registry_iff_revolute extSample docS UrdfTransformManager.init loadedS
    robotS "r" nodes0S nodesS rfl rfl rfl rfl rfl rfl

/-- C10: after a successful load, a declared link that no joint element
names as its child is committed as a static edge from the link's frame to
the frame named by the robot's name attribute, carrying the identity
child-to-parent transform. -/
theorem unreferenced_link_identity_edge (E : Externals) (doc : Elem)
    (s s' : UrdfTransformManager) (robot : Elem) (rn : String)
    (nodes0 nodes : List (String × Node)) (l : String)
    (hr : findFirst "robot" doc = some robot)
    (hrn : getAttr robot "name" = some rn)
    (hl0 : parseLinks rn (findAllTag "link" robot) [] = .ok nodes0)
    (hpj : processJoints E (findAllTag "joint" robot) nodes0 = .ok nodes)
    (hld : load_urdf E doc s = (s', none))
    (hdecl : l ∈ declaredLinkNames robot)
    (hnoc : ∀ j ∈ findAllTag "joint" robot, ∀ ce cn,
      findFirst "child" j = some ce → getAttr ce "link" = some cn → cn ≠ l) :
    lookupA s'.transforms (l, rn) = some Mat4.id := by
  have hres := load_urdf_resolved E doc s robot rn nodes0 hr hrn hl0
  rw [hpj] at hres
  simp only at hres
  rw [hld] at hres
  have hs' : s' = materialize nodes s := congrArg Prod.fst hres
  have hmem : l ∈ (findAllTag "link" robot).filterMap (fun e => getAttr e "name") := by
    simpa [declaredLinkNames] using hdecl
  have hln0 : lookupA nodes0 l = some (Node.init l rn) := by
    rw [parseLinks_lookup rn _ _ _ hl0 l, if_pos hmem]
  have hln : lookupA nodes l = some (Node.init l rn) := by
    rw [processJoints_lookup_untouched E _ nodes0 nodes l hpj hnoc, hln0]
  have hc0 : ∀ p ∈ nodes0, p.2.child = p.1 :=
    parseLinks_child_eq_key rn _ [] nodes0 hl0 (by simp)
  have hn0 : (nodes0.map Prod.fst).Nodup :=
    parseLinks_keys_nodup rn _ [] nodes0 hl0 (by simp)
  obtain ⟨hc, hn⟩ := processJoints_inv E _ nodes0 nodes hpj hc0 hn0
  have hfin := materialize_lookup_of_mem nodes s l (Node.init l rn) hc hn hln
  rw [hs']
  simpa [Node.init] using hfin

/-- Witness for C10: in `docS`, link "base" is no joint's child and ends up
attached to frame "r" by an identity edge. -/
theorem unreferenced_link_identity_edge_witness :
    lookupA loadedS.transforms ("base", "r") = some Mat4.id :=
  unreferenced_link_identity_edge extSample docS UrdfTransformManager.init
    loadedS robotS "r" nodes0S nodesS "base" rfl rfl rfl rfl rfl
    (by decide)
    (by
      intro j hj ce cn hce hcl
      have hja : findAllTag "joint" robotS = [jointElemS] := rfl
      rw [hja] at hj
      have hj' : j = jointElemS := by simpa using hj
      subst hj'
      have hce' : findFirst "child" jointElemS =
          some (el "child" [("link", "arm")] []) := rfl
      rw [hce'] at hce
      cases hce
      have hcl' : getAttr (el "child" [("link", "arm")] []) "link" =
          some "arm" := rfl
      rw [hcl'] at hcl
      cases hcl
      decide)

/-- Evaluating one joint-loop step when every lookup is known: all
validations pass and the step is decided by `_parse_joint`. -/
theorem processJoint_step (E : Externals) (j : Elem)
    (nodes : List (String × Node)) (jn t : String) (pe : Elem) (pn : String)
    (pnode : Node) (ce : Elem) (cn : String) (node : Node)
    (hn : getAttr j "name" = some jn) (hT : getAttr j "type" = some t)
    (hpe : findFirst "parent" j = some pe) (hpl : getAttr pe "link" = some pn)
    (hplk : lookupA nodes pn = some pnode)
    (hce : findFirst "child" j = some ce) (hcl : getAttr ce "link" = some cn)
    (hlk : lookupA nodes cn = some node) :
    processJoint E j nodes =
      match parse_joint E j node pn with
      | .error e => .error e
      | .ok node' => .ok (upsert cn node' nodes) := by
  simp only [processJoint, hn, hT, hpe, hpl, hplk, hce, hcl, hlk]

/-- One joint-loop step on a parent link that is not in the table: the
`UnknownParentLink` error, embedding the link and joint names. -/
theorem processJoint_parent_unknown (E : Externals) (j : Elem)
    (nodes : List (String × Node)) (jn t : String) (pe : Elem) (pn : String)
    (hn : getAttr j "name" = some jn) (hT : getAttr j "type" = some t)
    (hpe : findFirst "parent" j = some pe) (hpl : getAttr pe "link" = some pn)
    (hplk : lookupA nodes pn = none) :
    processJoint E j nodes =
      .error ("Parent link '" ++ pn ++ "' of joint '" ++ jn ++
        "' is not defined.") := by
  simp only [processJoint, hn, hT, hpe, hpl, hplk]

/-- One joint-loop step on a child link that is not in the table: the
`UnknownChildLink` error, embedding the link and joint names. -/
theorem processJoint_child_unknown (E : Externals) (j : Elem)
    (nodes : List (String × Node)) (jn t : String) (pe : Elem) (pn : String)
    (pnode : Node) (ce : Elem) (cn : String)
    (hn : getAttr j "name" = some jn) (hT : getAttr j "type" = some t)
    (hpe : findFirst "parent" j = some pe) (hpl : getAttr pe "link" = some pn)
    (hplk : lookupA nodes pn = some pnode)
    (hce : findFirst "child" j = some ce) (hcl : getAttr ce "link" = some cn)
    (hlk : lookupA nodes cn = none) :
    processJoint E j nodes =
      .error ("Child link '" ++ cn ++ "' of joint '" ++ jn ++
        "' is not defined.") := by
  simp only [processJoint, hn, hT, hpe, hpl, hplk, hce, hcl, hlk]

/-- `_parse_joint` on a recognized-but-unimplemented joint type: the
`UnsupportedJointType` error. -/
theorem parse_joint_unsupported (E : Externals) (j : Elem) (node : Node)
    (pn t : String) (hT : getAttr j "type" = some t)
    (hbad : t ∈ ["planar", "floating", "continuous", "prismatic"]) :
    parse_joint E j node pn =
      .error ("Unsupported joint type '" ++ t ++ "'") := by
  simp [parse_joint, hT, hbad]

/-- `_parse_joint` on an unrecognized joint type: the `InvalidJointType`
error. -/
theorem parse_joint_invalid (E : Externals) (j : Elem) (node : Node)
    (pn t : String) (hT : getAttr j "type" = some t)
    (hn1 : t ∉ ["planar", "floating", "continuous", "prismatic"])
    (hn2 : t ∉ ["revolute", "fixed"]) :
    parse_joint E j node pn =
      .error ("Joint type '" ++ t ++ "' is not allowed in a URDF document.") := by
  simp [parse_joint, hT, hn1, hn2]

/-- `_parse_joint` on a fixed or revolute joint raises no type error. -/
theorem parse_joint_valid_ok (E : Externals) (j : Elem) (node : Node)
    (pn t : String) (hT : getAttr j "type" = some t)
    (hval : t = "fixed" ∨ t = "revolute") :
    ∃ nd', parse_joint E j node pn = .ok nd' := by
  rcases hval with rfl | rfl <;> simp [parse_joint, hT]

/-- If the joint loop reaches a joint whose step fails, the whole load
fails with that step's error and returns the input state. -/
theorem load_urdf_joint_error (E : Externals) (doc : Elem)
    (s : UrdfTransformManager) (robot : Elem) (rn : String)
    (nodes0 : List (String × Node)) (js₁ : List Elem) (j : Elem)
    (js₂ : List Elem) (nodes1 : List (String × Node)) (e : String)
    (hr : findFirst "robot" doc = some robot)
    (hrn : getAttr robot "name" = some rn)
    (hl0 : parseLinks rn (findAllTag "link" robot) [] = .ok nodes0)
    (hsplit : findAllTag "joint" robot = js₁ ++ j :: js₂)
    (hpre : processJoints E js₁ nodes0 = .ok nodes1)
    (hstep : processJoint E j nodes1 = .error e) :
    load_urdf E doc s = (s, some e) := by
  rw [load_urdf_resolved E doc s robot rn nodes0 hr hrn hl0, hsplit,
    processJoints_append, hpre]
  simp only [processJoints, hstep]

/-- C5: for a joint element whose name, type, parent-link and child-link
validations pass, a type among planar/floating/continuous/prismatic makes
the load fail with `UnsupportedJointType`, any other type outside
{fixed, revolute} makes it fail with `InvalidJointType`, and a fixed or
revolute type raises no type error in `_parse_joint`. -/
theorem joint_type_validation (E : Externals) (doc : Elem)
    (s : UrdfTransformManager) (robot : Elem) (rn : String)
    (nodes0 : List (String × Node)) (js₁ : List Elem) (j : Elem)
    (js₂ : List Elem) (nodes1 : List (String × Node)) (jn t : String)
    (pe : Elem) (pn : String) (pnode : Node) (ce : Elem) (cn : String)
    (node : Node)
    (hr : findFirst "robot" doc = some robot)
    (hrn : getAttr robot "name" = some rn)
    (hl0 : parseLinks rn (findAllTag "link" robot) [] = .ok nodes0)
    (hsplit : findAllTag "joint" robot = js₁ ++ j :: js₂)
    (hpre : processJoints E js₁ nodes0 = .ok nodes1)
    (hn : getAttr j "name" = some jn) (hT : getAttr j "type" = some t)
    (hpe : findFirst "parent" j = some pe) (hpl : getAttr pe "link" = some pn)
    (hplk : lookupA nodes1 pn = some pnode)
    (hce : findFirst "child" j = some ce) (hcl : getAttr ce "link" = some cn)
    (hlk : lookupA nodes1 cn = some node) :
    (t ∈ ["planar", "floating", "continuous", "prismatic"] →
       load_urdf E doc s = (s, some ("Unsupported joint type '" ++ t ++ "'"))) ∧
    (t ∉ ["planar", "floating", "continuous", "prismatic"] →
       t ∉ ["revolute", "fixed"] →
       load_urdf E doc s =
         (s, some ("Joint type '" ++ t ++ "' is not allowed in a URDF document."))) ∧
    ((t = "fixed" ∨ t = "revolute") →
       ∃ nd', parse_joint E j node pn = .ok nd') := by
  refine ⟨?_, ?_, ?_⟩
  · intro hbad
    refine load_urdf_joint_error E doc s robot rn nodes0 js₁ j js₂ nodes1 _
      hr hrn hl0 hsplit hpre ?_
    rw [processJoint_step E j nodes1 jn t pe pn pnode ce cn node
      hn hT hpe hpl hplk hce hcl hlk,
      parse_joint_unsupported E j node pn t hT hbad]
  · intro hn1 hn2
    refine load_urdf_joint_error E doc s robot rn nodes0 js₁ j js₂ nodes1 _
      hr hrn hl0 hsplit hpre ?_
    rw [processJoint_step E j nodes1 jn t pe pn pnode ce cn node
      hn hT hpe hpl hplk hce hcl hlk,
      parse_joint_invalid E j node pn t hT hn1 hn2]
  · exact parse_joint_valid_ok E j node pn t hT

/-- The joint of the C5 witness document: type "continuous". -/
def jointC5 : Elem :=
  el "joint" [("name", "j2"), ("type", "continuous")]
    [el "parent" [("link", "base")] [], el "child" [("link", "arm")] []]

/-- The robot element of the C5 witness document. -/
def robotC5 : Elem :=
  el "robot" [("name", "r")]
    [el "link" [("name", "base")] [], el "link" [("name", "arm")] [], jointC5]

/-- The C5 witness document. -/
def docC5 : Elem := el "[document]" [] [robotC5]

/-- Witness for C5: the joint of type "continuous" makes the load of
`docC5` fail with the `UnsupportedJointType` error. -/
theorem joint_type_validation_witness :
    (("continuous" : String) ∈ ["planar", "floating", "continuous", "prismatic"] →
       load_urdf extSample docC5 UrdfTransformManager.init =
         (UrdfTransformManager.init,
           some ("Unsupported joint type '" ++ "continuous" ++ "'"))) ∧
    (("continuous" : String) ∉ ["planar", "floating", "continuous", "prismatic"] →
       ("continuous" : String) ∉ ["revolute", "fixed"] →
       load_urdf extSample docC5 UrdfTransformManager.init =
         (UrdfTransformManager.init,
           some ("Joint type '" ++ "continuous" ++
             "' is not allowed in a URDF document."))) ∧
    ((("continuous" : String) = "fixed" ∨ ("continuous" : String) = "revolute") →
       ∃ nd', parse_joint extSample jointC5 (Node.init "arm" "r") "base" =
         .ok nd') :=
  joint_type_validation extSample docC5 UrdfTransformManager.init robotC5 "r"
    nodes0S [] jointC5 [] nodes0S "j2" "continuous"
    (el "parent" [("link", "base")] []) "base" (Node.init "base" "r")
    (el "child" [("link", "arm")] []) "arm" (Node.init "arm" "r")
    rfl rfl rfl rfl rfl rfl rfl rfl rfl rfl rfl rfl rfl

/-- C4: a joint's parent and child link names are resolved against the
table of all links declared anywhere in the document (the table is complete
before any joint is examined, so declaration order of links and joints is
immaterial): an undeclared parent (child) name fails the load with the
`UnknownParentLink` (`UnknownChildLink`) error, a declared one resolves. -/
theorem link_reference_resolution (E : Externals) (doc : Elem)
    (s : UrdfTransformManager) (robot : Elem) (rn : String)
    (nodes0 : List (String × Node)) (js₁ : List Elem) (j : Elem)
    (js₂ : List Elem) (nodes1 : List (String × Node)) (jn t : String)
    (pe : Elem) (pn : String)
    (hr : findFirst "robot" doc = some robot)
    (hrn : getAttr robot "name" = some rn)
    (hl0 : parseLinks rn (findAllTag "link" robot) [] = .ok nodes0)
    (hsplit : findAllTag "joint" robot = js₁ ++ j :: js₂)
    (hpre : processJoints E js₁ nodes0 = .ok nodes1)
    (hn : getAttr j "name" = some jn) (hT : getAttr j "type" = some t)
    (hpe : findFirst "parent" j = some pe) (hpl : getAttr pe "link" = some pn) :
    (pn ∉ declaredLinkNames robot →
       load_urdf E doc s =
         (s, some ("Parent link '" ++ pn ++ "' of joint '" ++ jn ++
           "' is not defined."))) ∧
    (pn ∈ declaredLinkNames robot → (lookupA nodes1 pn).isSome = true) ∧
    (pn ∈ declaredLinkNames robot → ∀ ce cn, findFirst "child" j = some ce →
       getAttr ce "link" = some cn →
       (cn ∉ declaredLinkNames robot →
          load_urdf E doc s =
            (s, some ("Child link '" ++ cn ++ "' of joint '" ++ jn ++
              "' is not defined."))) ∧
       (cn ∈ declaredLinkNames robot → (lookupA nodes1 cn).isSome = true)) := by
  have hmem : ∀ nm, (lookupA nodes1 nm).isSome = true ↔
      nm ∈ declaredLinkNames robot := by
    intro nm
    rw [processJoints_keys E js₁ nodes0 nodes1 hpre nm,
      parseLinks_lookup rn _ _ _ hl0 nm]
    by_cases h : nm ∈ (findAllTag "link" robot).filterMap (fun l => getAttr l "name")
    · simp [declaredLinkNames, h]
    · simp [declaredLinkNames, h, lookupA]
  have hnone : ∀ nm, nm ∉ declaredLinkNames robot → lookupA nodes1 nm = none := by
    intro nm hnm
    cases hln : lookupA nodes1 nm with
    | none => rfl
    | some v => exact absurd ((hmem nm).mp (by rw [hln]; rfl)) hnm
  refine ⟨?_, fun hyes => (hmem pn).mpr hyes, ?_⟩
  · intro hno
    exact load_urdf_joint_error E doc s robot rn nodes0 js₁ j js₂ nodes1 _
      hr hrn hl0 hsplit hpre
      (processJoint_parent_unknown E j nodes1 jn t pe pn hn hT hpe hpl
        (hnone pn hno))
  · intro hyes ce cn hce hcl
    obtain ⟨pnode, hplk⟩ := Option.isSome_iff_exists.mp ((hmem pn).mpr hyes)
    refine ⟨?_, fun hcy => (hmem cn).mpr hcy⟩
    intro hno
    exact load_urdf_joint_error E doc s robot rn nodes0 js₁ j js₂ nodes1 _
      hr hrn hl0 hsplit hpre
      (processJoint_child_unknown E j nodes1 jn t pe pn pnode ce cn
        hn hT hpe hpl hplk hce hcl (hnone cn hno))

/-- The joint of the C4 witness document: its parent names the undeclared
link "ghost". -/
def jointC4 : Elem :=
  el "joint" [("name", "j3"), ("type", "revolute")]
    [el "parent" [("link", "ghost")] [], el "child" [("link", "arm")] []]

/-- The robot element of the C4 witness document. -/
def robotC4 : Elem :=
  el "robot" [("name", "r")]
    [el "link" [("name", "base")] [], el "link" [("name", "arm")] [], jointC4]

/-- The C4 witness document. -/
def docC4 : Elem := el "[document]" [] [robotC4]

/-- Witness for C4: in `docC4` the parent link "ghost" is undeclared while
the child link "arm" is declared. -/
theorem link_reference_resolution_witness :
    (("ghost" : String) ∉ declaredLinkNames robotC4 →
       load_urdf extSample docC4 UrdfTransformManager.init =
         (UrdfTransformManager.init,
           some ("Parent link '" ++ "ghost" ++ "' of joint '" ++ "j3" ++
             "' is not defined."))) ∧
    (("ghost" : String) ∈ declaredLinkNames robotC4 →
       (lookupA nodes0S "ghost").isSome = true) ∧
    (("ghost" : String) ∈ declaredLinkNames robotC4 → ∀ ce cn,
       findFirst "child" jointC4 = some ce → getAttr ce "link" = some cn →
       (cn ∉ declaredLinkNames robotC4 →
          load_urdf extSample docC4 UrdfTransformManager.init =
            (UrdfTransformManager.init,
              some ("Child link '" ++ cn ++ "' of joint '" ++ "j3" ++
                "' is not defined."))) ∧
       (cn ∈ declaredLinkNames robotC4 → (lookupA nodes0S cn).isSome = true)) :=
  link_reference_resolution extSample docC4 UrdfTransformManager.init robotC4
    "r" nodes0S [] jointC4 [] nodes0S "j3" "revolute"
    (el "parent" [("link", "ghost")] []) "ghost"
    rfl rfl rfl rfl rfl rfl rfl rfl rfl

/-- A one-link robot document parameterized by the robot name. -/
def docN (rn : String) : Elem :=
  el "[document]" []
    [el "robot" [("name", rn)] [el "link" [("name", "base")] []]]

/-- C8 counterexample: two documents that differ only in the robot name
attribute load to different states — the link "base" is no joint's child,
so it is committed as an edge to a frame named by the robot name, and that
name differs. -/
theorem robot_name_affects_load :
    load_urdf extSample (docN "r1") UrdfTransformManager.init ≠
      load_urdf extSample (docN "r2") UrdfTransformManager.init := by
  decide

/-! ### Renaming simulation for the robot name

The robot name enters the load pipeline in exactly one place: as the
initial `parent` of every link node.  The following lemmas push a parent
renaming through each pipeline stage. -/

/-- Rewrite a node's parent frame through a renaming. -/
def nodeSubst (f : String → String) (nd : Node) : Node :=
  { nd with parent := f nd.parent }

theorem lookupA_map_snd {α β γ : Type} [DecidableEq α] (t : β → γ)
    (l : List (α × β)) (k : α) :
    lookupA (l.map (fun p => (p.1, t p.2))) k = (lookupA l k).map t := by
  induction l with
  | nil => simp [lookupA]
  | cons hd tl ih =>
      obtain ⟨k0, v0⟩ := hd
      by_cases h : k = k0 <;> simp [lookupA, h, ih]

theorem upsert_map_snd {α β : Type} [DecidableEq α] (t : β → β) (key : α)
    (val : β) (l : List (α × β)) :
    upsert key (t val) (l.map (fun p => (p.1, t p.2))) =
      (upsert key val l).map (fun p => (p.1, t p.2)) := by
  induction l with
  | nil => simp [upsert]
  | cons hd tl ih =>
      obtain ⟨k0, v0⟩ := hd
      by_cases h : key = k0 <;> simp [upsert, h, ih]

theorem upsert_map_key {α β : Type} [DecidableEq α] (g : α → α) (k : α)
    (v : β) (l : List (α × β))
    (hg : ∀ k' v', (k', v') ∈ l → (g k = g k' ↔ k = k')) :
    upsert (g k) v (l.map (fun p => (g p.1, p.2))) =
      (upsert k v l).map (fun p => (g p.1, p.2)) := by
  induction l with
  | nil => simp [upsert]
  | cons hd tl ih =>
      obtain ⟨k0, v0⟩ := hd
      by_cases h : k = k0
      · subst h
        simp [upsert, (hg k v0 (List.mem_cons_self _ _)).mpr rfl]
      · have hne : ¬ g k = g k0 :=
          fun he => h ((hg k0 v0 (List.mem_cons_self _ _)).mp he)
        simp only [List.map_cons, upsert, hne, if_false, h]
        rw [ih (fun k' v' hm => hg k' v' (List.mem_cons_of_mem _ hm))]

/-- `_parse_joint` commutes with a parent renaming that fixes the parent
name being written. -/
theorem parse_joint_subst (E : Externals) (j : Elem) (nd : Node)
    (pn : String) (f : String → String) (hpn : f pn = pn) :
    parse_joint E j (nodeSubst f nd) pn =
      match parse_joint E j nd pn with
      | .error e => .error e
      | .ok nd' => .ok (nodeSubst f nd') := by
  unfold parse_joint
  dsimp only [nodeSubst]
  split
  · rfl
  split
  · rfl
  split <;> simp [nodeSubst, hpn]

/-- The link loop commutes with a parent renaming that maps the first
robot name to the second. -/
theorem parseLinks_rename (f : String → String) (rn1 rn2 : String)
    (hf : f rn1 = rn2) (ls : List Elem) (acc : List (String × Node)) :
    parseLinks rn2 ls (acc.map (fun p => (p.1, nodeSubst f p.2))) =
      match parseLinks rn1 ls acc with
      | .error e => .error e
      | .ok out => .ok (out.map (fun p => (p.1, nodeSubst f p.2))) := by
  induction ls generalizing acc with
  | nil => simp [parseLinks]
  | cons l ls ih =>
      simp only [parseLinks, parse_link]
      cases hA : getAttr l "name" with
      | none => simp
      | some nm =>
          simp only
          have hinit : Node.init nm rn2 = nodeSubst f (Node.init nm rn1) := by
            simp [Node.init, nodeSubst, hf]
          rw [hinit, upsert_map_snd, ih]
          simp only [nodeSubst, Node.init]

/-- One joint-loop step commutes with a parent renaming that fixes every
name present in the table. -/
theorem processJoint_subst (E : Externals) (j : Elem)
    (nodes : List (String × Node)) (f : String → String)
    (hkeys : ∀ nm pnd, lookupA nodes nm = some pnd → f nm = nm) :
    processJoint E j (nodes.map (fun p => (p.1, nodeSubst f p.2))) =
      match processJoint E j nodes with
      | .error e => .error e
      | .ok out => .ok (out.map (fun p => (p.1, nodeSubst f p.2))) := by
  unfold processJoint
  cases hn : getAttr j "name" with
  | none => simp
  | some jn =>
  simp only
  cases hT : getAttr j "type" with
  | none => simp
  | some t =>
  simp only
  cases hpe : findFirst "parent" j with
  | none => simp
  | some pe =>
  simp only
  cases hpl : getAttr pe "link" with
  | none => simp
  | some pn =>
  simp only
  rw [lookupA_map_snd]
  cases hplk : lookupA nodes pn with
  | none => simp
  | some pnode =>
  simp only [Option.map_some']
  cases hce : findFirst "child" j with
  | none => simp
  | some ce =>
  simp only
  cases hcl : getAttr ce "link" with
  | none => simp
  | some cn =>
  simp only
  rw [lookupA_map_snd]
  cases hlk : lookupA nodes cn with
  | none => simp
  | some node =>
  simp only [Option.map_some']
  rw [parse_joint_subst E j node pn f (hkeys pn pnode hplk)]
  cases hpj : parse_joint E j node pn with
  | error e => simp
  | ok node' =>
  simp only
  rw [upsert_map_snd]

/-- The joint loop commutes with a parent renaming that fixes every name
present in the table. -/
theorem processJoints_subst (E : Externals) (js : List Elem)
    (nodes : List (String × Node)) (f : String → String)
    (hkeys : ∀ nm pnd, lookupA nodes nm = some pnd → f nm = nm) :
    processJoints E js (nodes.map (fun p => (p.1, nodeSubst f p.2))) =
      match processJoints E js nodes with
      | .error e => .error e
      | .ok out => .ok (out.map (fun p => (p.1, nodeSubst f p.2))) := by
  induction js generalizing nodes with
  | nil => simp [processJoints]
  | cons j js ih =>
      simp only [processJoints]
      rw [processJoint_subst E j nodes f hkeys]
      cases hj : processJoint E j nodes with
      | error e => simp
      | ok nodes' =>
          simp only
          refine ih nodes' ?_
          intro nm pnd hl
          have hs : (lookupA nodes nm).isSome = true := by
            rw [← processJoint_keys E j nodes nodes' hj nm, hl]
            rfl
          obtain ⟨pnd0, h0⟩ := Option.isSome_iff_exists.mp hs
          exact hkeys nm pnd0 h0

/-- Invariant through the joint loop: every node's parent is either the
robot name (never touched by a joint) or a name present in the table, and a
revolute node's parent is always a name present in the table. -/
theorem processJoints_parent_inv (E : Externals) (js : List Elem)
    (nodes out : List (String × Node)) (rn : String)
    (h : processJoints E js nodes = .ok out)
    (hinv : ∀ p ∈ nodes,
      (p.2.parent = rn ∨ (lookupA nodes p.2.parent).isSome = true) ∧
      (p.2.joint_type = "revolute" → (lookupA nodes p.2.parent).isSome = true)) :
    ∀ p ∈ out,
      (p.2.parent = rn ∨ (lookupA out p.2.parent).isSome = true) ∧
      (p.2.joint_type = "revolute" → (lookupA out p.2.parent).isSome = true) := by
  induction js generalizing nodes with
  | nil =>
      simp only [processJoints] at h
      cases h
      exact hinv
  | cons j js ih =>
      simp only [processJoints] at h
      cases hj : processJoint E j nodes with
      | error e => rw [hj] at h; simp at h
      | ok nodes' =>
          rw [hj] at h
          simp only at h
          refine ih _ h ?_
          have hk := processJoint_keys E j nodes nodes' hj
          obtain ⟨jn, pe, pn, ce, cn, node, node', _, _, _, _, hplk, _, _, hlk, hpj, hout⟩ :=
            processJoint_ok_inv E j nodes nodes' hj
          have he := parse_joint_ok_eq E j node pn node' hpj
          intro p hp
          rw [hout] at hp
          rcases mem_upsert _ _ _ _ hp with rfl | hp'
          · have hpar : node'.parent = pn := by rw [he]
            have hsome : (lookupA nodes' node'.parent).isSome = true := by
              rw [hk, hpar, hplk]
            exact ⟨Or.inr hsome, fun _ => hsome⟩
          · obtain ⟨h1, h2⟩ := hinv p hp'
            refine ⟨?_, fun hrev => by rw [hk]; exact h2 hrev⟩
            rcases h1 with h1 | h1
            · exact Or.inl h1
            · exact Or.inr (by rw [hk]; exact h1)

/-- Materializing a renamed node table against a renamed store: the final
edge store is the original one with every edge's parent frame renamed, and
the joint registry is unchanged, provided the renaming is injective on the
parents in play and fixes the parent of every revolute node. -/
theorem materialize_subst (f : String → String) (P : String → Prop)
    (hinj : ∀ q q', P q → P q' → f q = f q' → q = q')
    (nodes : List (String × Node)) (s1 s2 : UrdfTransformManager)
    (hnodes : ∀ p ∈ nodes, P p.2.parent)
    (hjf : ∀ p ∈ nodes, p.2.joint_type = "revolute" → f p.2.parent = p.2.parent)
    (hT : s2.transforms = s1.transforms.map (fun p => ((p.1.1, f p.1.2), p.2)))
    (hTP : ∀ p ∈ s1.transforms, P p.1.2)
    (hJ : s2.joints = s1.joints) :
    (materialize (nodes.map (fun p => (p.1, nodeSubst f p.2))) s2).transforms =
      (materialize nodes s1).transforms.map (fun p => ((p.1.1, f p.1.2), p.2)) ∧
    (materialize (nodes.map (fun p => (p.1, nodeSubst f p.2))) s2).joints =
      (materialize nodes s1).joints := by
  induction nodes generalizing s1 s2 with
  | nil => exact ⟨hT, hJ⟩
  | cons hd rest ih =>
      obtain ⟨k, nd⟩ := hd
      simp only [List.map_cons]
      rw [materialize, materialize]
      refine ih _ _ (fun p hp => hnodes p (List.mem_cons_of_mem _ hp))
        (fun p hp => hjf p (List.mem_cons_of_mem _ hp)) ?_ ?_ ?_
      · rw [commitNode_transforms, commitNode_transforms, hT]
        dsimp only [nodeSubst]
        refine upsert_map_key (fun q => (q.1, f q.2)) (nd.child, nd.parent)
          nd.child2parent s1.transforms ?_
        intro k' v' hm
        obtain ⟨c', p'⟩ := k'
        constructor
        · intro heq
          have h1 : nd.child = c' := congrArg Prod.fst heq
          have h2 : f nd.parent = f p' := congrArg Prod.snd heq
          have h3 : nd.parent = p' :=
            hinj _ _ (hnodes (k, nd) (List.mem_cons_self _ _))
              (hTP ((c', p'), v') hm) h2
          rw [h1, h3]
        · intro heq
          cases heq
          rfl
      · rw [commitNode_transforms]
        intro p hp
        rcases mem_upsert _ _ _ _ hp with rfl | hp'
        · exact hnodes (k, nd) (List.mem_cons_self _ _)
        · exact hTP p hp'
      · rw [commitNode_joints, commitNode_joints, hJ]
        dsimp only [nodeSubst]
        by_cases hrev : nd.joint_type = "revolute"
        · rw [if_pos hrev, if_pos hrev,
            hjf (k, nd) (List.mem_cons_self _ _) hrev]
        · rw [if_neg hrev, if_neg hrev]

/-- Every entry the link loop produces is a freshly initialized node whose
parent is the robot name. -/
theorem parseLinks_entries (rn : String) (ls : List Elem)
    (acc out : List (String × Node)) (h : parseLinks rn ls acc = .ok out)
    (hacc : ∀ p ∈ acc, p.2 = Node.init p.1 rn) :
    ∀ p ∈ out, p.2 = Node.init p.1 rn := by
  induction ls generalizing acc with
  | nil =>
      simp only [parseLinks] at h
      cases h
      exact hacc
  | cons l ls ih =>
      simp only [parseLinks, parse_link] at h
      cases hA : getAttr l "name" with
      | none => rw [hA] at h; simp at h
      | some nm =>
          rw [hA] at h
          simp only at h
          refine ih _ h ?_
          intro p hp
          rcases mem_upsert _ _ _ _ hp with rfl | hp'
          · rfl
          · exact hacc p hp'

/-- After the link loop and any prefix of the joint loop, a name is present
in the table exactly when it is a declared link name. -/
theorem table_keys_iff (E : Externals) (robot : Elem) (rn : String)
    (js : List Elem) (nodes0 nodes1 : List (String × Node))
    (hl0 : parseLinks rn (findAllTag "link" robot) [] = .ok nodes0)
    (hpre : processJoints E js nodes0 = .ok nodes1) (nm : String) :
    (lookupA nodes1 nm).isSome = true ↔ nm ∈ declaredLinkNames robot := by
  rw [processJoints_keys E js nodes0 nodes1 hpre nm,
    parseLinks_lookup rn _ _ _ hl0 nm]
  by_cases h : nm ∈ (findAllTag "link" robot).filterMap (fun l => getAttr l "name")
  · simp [declaredLinkNames, h]
  · simp [declaredLinkNames, h, lookupA]

/-- Rename one frame name into another, fixing every other name. -/
def renameFrame (rn1 rn2 : String) : String → String :=
  fun p => if p = rn1 then rn2 else p

/-- The element's direct children. -/
def Elem.children : Elem → ElemList
  | .mk _ _ c => c

/-- C8 amended: the robot name's one semantic effect is to name the frame
to which links that are no joint's child are attached.  For two documents
whose robot elements carry the same children and differ (at most) in the
robot name — the names not colliding with any declared link name — loading
into a manager with an empty edge store raises the same error, produces the
same joint registrations, and produces the same edges except that each
edge's parent frame equal to the first robot name is renamed to the
second. -/
theorem robot_name_only_names_root_frame (E : Externals) (d1 d2 : Elem)
    (robot1 robot2 : Elem) (rn1 rn2 : String) (s : UrdfTransformManager)
    (hr1 : findFirst "robot" d1 = some robot1)
    (hr2 : findFirst "robot" d2 = some robot2)
    (hsame : robot1.children = robot2.children)
    (hn1 : getAttr robot1 "name" = some rn1)
    (hn2 : getAttr robot2 "name" = some rn2)
    (hd1 : rn1 ∉ declaredLinkNames robot1)
    (hd2 : rn2 ∉ declaredLinkNames robot1)
    (hS : s.transforms = []) :
    (load_urdf E d2 s).2 = (load_urdf E d1 s).2 ∧
    (load_urdf E d2 s).1.joints = (load_urdf E d1 s).1.joints ∧
    (load_urdf E d2 s).1.transforms =
      (load_urdf E d1 s).1.transforms.map
        (fun p => ((p.1.1, renameFrame rn1 rn2 p.1.2), p.2)) := by
  have hdesc : robot2.descendants = robot1.descendants := by
    cases robot1 with
    | mk t1 a1 c1 =>
        cases robot2 with
        | mk t2 a2 c2 =>
            have hc : c1 = c2 := hsame
            show ElemList.descList c2 = ElemList.descList c1
            rw [hc]
  have hlinks : findAllTag "link" robot2 = findAllTag "link" robot1 := by
    unfold findAllTag
    rw [hdesc]
  have hjoints : findAllTag "joint" robot2 = findAllTag "joint" robot1 := by
    unfold findAllTag
    rw [hdesc]
  have hf1 : renameFrame rn1 rn2 rn1 = rn2 := by
    simp [renameFrame]
  have hfix : ∀ nm, nm ∈ declaredLinkNames robot1 →
      renameFrame rn1 rn2 nm = nm := by
    intro nm hnm
    have hne : nm ≠ rn1 := fun he => hd1 (he ▸ hnm)
    simp [renameFrame, hne]
  have hinj : ∀ q q', (q ∈ declaredLinkNames robot1 ∨ q = rn1) →
      (q' ∈ declaredLinkNames robot1 ∨ q' = rn1) →
      renameFrame rn1 rn2 q = renameFrame rn1 rn2 q' → q = q' := by
    intro q q' hq hq' he
    by_cases h1 : q = rn1 <;> by_cases h2 : q' = rn1
    · rw [h1, h2]
    · simp only [renameFrame, h1, h2, if_pos, if_neg, if_true, if_false] at he
      rcases hq' with hq' | hq'
      · subst he
        exact absurd hq' hd2
      · exact absurd hq' h2
    · simp only [renameFrame, h1, h2, if_pos, if_neg, if_true, if_false] at he
      rcases hq with hq | hq
      · rw [he] at hq
        exact absurd hq hd2
      · exact absurd hq h1
    · simp only [renameFrame, if_neg h1, if_neg h2] at he
      exact he
  simp only [load_urdf, hr1, hr2, hn1, hn2, hlinks, hjoints]
  have hpl2 : parseLinks rn2 (findAllTag "link" robot1) [] =
      match parseLinks rn1 (findAllTag "link" robot1) [] with
      | .error e => .error e
      | .ok out =>
          .ok (out.map (fun p => (p.1, nodeSubst (renameFrame rn1 rn2) p.2))) := by
    have h := parseLinks_rename (renameFrame rn1 rn2) rn1 rn2 hf1
      (findAllTag "link" robot1) []
    simpa using h
  rw [hpl2]
  cases hcase : parseLinks rn1 (findAllTag "link" robot1) [] with
  | error e => exact ⟨rfl, rfl, by rw [hS]; rfl⟩
  | ok nodes0 =>
      simp only
      have hkeys : ∀ nm pnd, lookupA nodes0 nm = some pnd →
          renameFrame rn1 rn2 nm = nm := by
        intro nm pnd hl
        refine hfix nm ?_
        rw [← table_keys_iff E robot1 rn1 [] nodes0 nodes0 hcase rfl nm, hl]
        rfl
      rw [processJoints_subst E _ nodes0 _ hkeys]
      cases hcase2 : processJoints E (findAllTag "joint" robot1) nodes0 with
      | error e => exact ⟨rfl, rfl, by rw [hS]; rfl⟩
      | ok nodes =>
          simp only
          have hiff := table_keys_iff E robot1 rn1 _ nodes0 nodes hcase hcase2
          have hinv0 : ∀ p ∈ nodes0,
              (p.2.parent = rn1 ∨ (lookupA nodes0 p.2.parent).isSome = true) ∧
              (p.2.joint_type = "revolute" →
                (lookupA nodes0 p.2.parent).isSome = true) := by
            intro p hp
            have he := parseLinks_entries rn1 _ _ _ hcase (by simp) p hp
            rw [he]
            exact ⟨Or.inl rfl, fun hrev => by simp [Node.init] at hrev⟩
          have hinv := processJoints_parent_inv E _ nodes0 nodes rn1 hcase2 hinv0
          obtain ⟨hTfin, hJfin⟩ :=
            materialize_subst (renameFrame rn1 rn2)
              (fun q => q ∈ declaredLinkNames robot1 ∨ q = rn1) hinj nodes s s
              (fun p hp => by
                rcases (hinv p hp).1 with h | h
                · exact Or.inr h
                · exact Or.inl ((hiff p.2.parent).mp h))
              (fun p hp hrev =>
                hfix p.2.parent ((hiff p.2.parent).mp ((hinv p hp).2 hrev)))
              (by rw [hS]; rfl)
              (by rw [hS]; intro p hp; cases hp)
              rfl
          exact ⟨trivial, hJfin, hTfin⟩

/-- Witness for the amended C8: the two one-link documents with robot names
"r1" and "r2" load to the same registry and to edges differing only in the
renamed root frame. -/
theorem robot_name_only_names_root_frame_witness :
    (load_urdf extSample (docN "r2") UrdfTransformManager.init).2 =
      (load_urdf extSample (docN "r1") UrdfTransformManager.init).2 ∧
    (load_urdf extSample (docN "r2") UrdfTransformManager.init).1.joints =
      (load_urdf extSample (docN "r1") UrdfTransformManager.init).1.joints ∧
    (load_urdf extSample (docN "r2") UrdfTransformManager.init).1.transforms =
      (load_urdf extSample (docN "r1") UrdfTransformManager.init).1.transforms.map
        (fun p => ((p.1.1, renameFrame "r1" "r2" p.1.2), p.2)) :=
  robot_name_only_names_root_frame extSample (docN "r1") (docN "r2")
    (el "robot" [("name", "r1")] [el "link" [("name", "base")] []])
    (el "robot" [("name", "r2")] [el "link" [("name", "base")] []])
    "r1" "r2" UrdfTransformManager.init rfl rfl rfl rfl rfl
    (by decide) (by decide) rfl
